import Mathlib

/-!
Verification of the slide-presentation editor (powerpoint-editor).

This file gives a shallow embedding of the presentation data model, the
editor state machine (`src/components/editor.tsx`), the context provider
variant (`presentation-context`, concatenated into `src/lib/types.ts`),
the PPTX import converter (`src/components/pptx-converter.ts`), the
`clonePresentation` deep-copy helper (`lib/utils.ts`) and the debounced
canvas-persistence listener, and proves the spec claims about them.
-/

namespace PptEditor

/-! ### JSON value model for `clonePresentation` / `cloneSlide` (lib/utils.ts)

`clonePresentation(p) = JSON.parse(JSON.stringify(p))`.  We model the
JSON-representable values as a tree (objects as ordered key/value lists,
which is how `JSON.stringify` serializes own enumerable properties) and the
round trip as the structural copy it denotes: for a JSON-representable
value (no `undefined`, no functions, no cycles) `JSON.parse ∘ JSON.stringify`
rebuilds every node.  Scalar JSON numbers round-trip exactly (shortest
double representation), so the scalar payload type is immaterial; we use
`Int` for numbers. -/

mutual
inductive Json : Type where
  | null : Json
  | bool (b : Bool) : Json
  | num (n : Int) : Json
  | str (s : String) : Json
  | arr (a : JsonArr) : Json
  | obj (o : JsonObj) : Json

inductive JsonArr : Type where
  | nil : JsonArr
  | cons (hd : Json) (tl : JsonArr) : JsonArr

inductive JsonObj : Type where
  | nil : JsonObj
  | cons (key : String) (val : Json) (tl : JsonObj) : JsonObj
end

mutual
/-- The JSON round trip `JSON.parse(JSON.stringify(·))` on a
JSON-representable value: every node of the tree is rebuilt. -/
def cloneJson : Json → Json
  | .null => .null
  | .bool b => .bool b
  | .num n => .num n
  | .str s => .str s
  | .arr a => .arr (cloneJsonArr a)
  | .obj o => .obj (cloneJsonObj o)

/-- Round trip of a JSON array: each element is rebuilt. -/
def cloneJsonArr : JsonArr → JsonArr
  | .nil => .nil
  | .cons hd tl => .cons (cloneJson hd) (cloneJsonArr tl)

/-- Round trip of a JSON object: each property value is rebuilt. -/
def cloneJsonObj : JsonObj → JsonObj
  | .nil => .nil
  | .cons k v tl => .cons k (cloneJson v) (cloneJsonObj tl)
end

/-- `clonePresentation` from `lib/utils.ts`, at the JSON-value level. -/
def clonePresentationJson (p : Json) : Json := cloneJson p

/-- `cloneSlide` from `lib/utils.ts`, at the JSON-value level: the same
JSON round trip applied to a slide value. -/
def cloneSlideJson (s : Json) : Json := cloneJson s

mutual
theorem cloneJson_eq : ∀ j : Json, cloneJson j = j
  | .null => rfl
  | .bool _ => rfl
  | .num _ => rfl
  | .str _ => rfl
  | .arr a => by rw [cloneJson, cloneJsonArr_eq a]
  | .obj o => by rw [cloneJson, cloneJsonObj_eq o]

theorem cloneJsonArr_eq : ∀ a : JsonArr, cloneJsonArr a = a
  | .nil => rfl
  | .cons hd tl => by rw [cloneJsonArr, cloneJson_eq hd, cloneJsonArr_eq tl]

theorem cloneJsonObj_eq : ∀ o : JsonObj, cloneJsonObj o = o
  | .nil => rfl
  | .cons k v tl => by rw [cloneJsonObj, cloneJson_eq v, cloneJsonObj_eq tl]
end

/-! ### Decimal rendering of naturals

The import converter builds slide ids with JS template strings such as
`` `slide-${index}-${Date.now()}` ``.  `${n}` renders a natural number in
decimal; the Lean counterpart is `Nat.repr`.  We characterize `Nat.repr`
through Mathlib's `Nat.digits` and derive that it is injective and consists
of digit characters only, which is what the slide-id distinctness argument
needs. -/

/-- The character list of the decimal rendering of `n`. -/
def decChars (n : Nat) : List Char :=
  if n = 0 then ['0'] else ((Nat.digits 10 n).map Nat.digitChar).reverse

theorem toDigitsCore_eq_decChars (n : Nat) :
    ∀ fuel acc, n < fuel → Nat.toDigitsCore 10 fuel n acc = decChars n ++ acc := by
  induction n using Nat.strong_induction_on with
  | _ n ih =>
    intro fuel acc hlt
    match fuel, hlt with
    | fuel + 1, _ =>
      show (if n / 10 = 0 then Nat.digitChar (n % 10) :: acc
            else Nat.toDigitsCore 10 fuel (n / 10) (Nat.digitChar (n % 10) :: acc)) = _
      by_cases h0 : n / 10 = 0
      · have hn10 : n < 10 := by omega
        by_cases hz : n = 0
        · subst hz; simp [decChars]; rfl
        · have hdig : Nat.digits 10 n = [n % 10] := by
            rw [Nat.digits_def' (by norm_num) (Nat.pos_of_ne_zero hz), h0, Nat.digits_zero]
          simp [h0, decChars, hz, hdig]
      · have hnz : 0 < n := by
          rcases Nat.eq_zero_or_pos n with h | h
          · exact absurd (by simp [h]) h0
          · exact h
        have hdiv_lt : n / 10 < n := Nat.div_lt_self hnz (by norm_num)
        have hfuel : n / 10 < fuel := by omega
        rw [if_neg h0, ih (n / 10) hdiv_lt fuel _ hfuel]
        have hdig : Nat.digits 10 n = n % 10 :: Nat.digits 10 (n / 10) :=
          Nat.digits_def' (by norm_num) hnz
        unfold decChars
        rw [if_neg h0, if_neg (by omega : ¬ n = 0), hdig]
        simp [List.append_assoc]

theorem repr_eq_decChars (n : Nat) : Nat.repr n = (decChars n).asString := by
  show (Nat.toDigitsCore 10 (n + 1) n []).asString = _
  rw [toDigitsCore_eq_decChars n (n + 1) [] (Nat.lt_succ_self n), List.append_nil]

theorem data_repr (n : Nat) : (Nat.repr n).data = decChars n := by
  rw [repr_eq_decChars]; rfl

theorem digitChar_ne_dash : ∀ d < 10, Nat.digitChar d ≠ '-' := by decide

theorem digitChar_inj_lt : ∀ a < 10, ∀ b < 10,
    Nat.digitChar a = Nat.digitChar b → a = b := by decide

theorem mem_decChars_digit {n : Nat} {c : Char} (h : c ∈ decChars n) :
    ∃ d, d < 10 ∧ c = Nat.digitChar d := by
  unfold decChars at h
  by_cases hz : n = 0
  · refine ⟨0, by norm_num, ?_⟩
    simp [hz] at h
    simp [h]; rfl
  · rw [if_neg hz, List.mem_reverse, List.mem_map] at h
    obtain ⟨d, hd, rfl⟩ := h
    exact ⟨d, Nat.digits_lt_base (by norm_num) hd, rfl⟩

theorem dash_not_mem_decChars (n : Nat) : '-' ∉ decChars n := by
  intro h
  obtain ⟨d, hd, hc⟩ := mem_decChars_digit h
  exact digitChar_ne_dash d hd hc.symm

theorem map_digitChar_inj : ∀ L1 L2 : List Nat, (∀ d ∈ L1, d < 10) → (∀ d ∈ L2, d < 10) →
    L1.map Nat.digitChar = L2.map Nat.digitChar → L1 = L2 := by
  intro L1
  induction L1 with
  | nil => intro L2 _ _ h; cases L2 <;> simp_all
  | cons x xs ih =>
    intro L2 h1 h2 h
    cases L2 with
    | nil => simp at h
    | cons y ys =>
      simp only [List.map_cons, List.cons.injEq] at h
      have hx : x = y := digitChar_inj_lt x (h1 x (by simp)) y (h2 y (by simp)) h.1
      have : xs = ys := ih ys (fun d hd => h1 d (by simp [hd])) (fun d hd => h2 d (by simp [hd])) h.2
      simp [hx, this]

theorem decChars_inj : ∀ m n : Nat, decChars m = decChars n → m = n := by
  have key : ∀ k : Nat, k ≠ 0 → decChars k ≠ ['0'] := by
    intro k hk h
    unfold decChars at h
    rw [if_neg hk] at h
    have : (Nat.digits 10 k).map Nat.digitChar = ['0'] := by
      have := congrArg List.reverse h
      simpa using this
    rcases hdig : Nat.digits 10 k with _ | ⟨d, ds⟩
    · rw [hdig] at this; simp at this
    · rw [hdig] at this
      rcases ds with _ | ⟨d2, ds2⟩
      · simp only [List.map_cons, List.map_nil, List.cons.injEq] at this
        have hd10 : d < 10 := Nat.digits_lt_base (by norm_num) (by rw [hdig]; simp)
        have hd0 : d = 0 := by
          have := digitChar_inj_lt d hd10 0 (by norm_num) (by simpa using this.1)
          exact this
        have := Nat.ofDigits_digits 10 k
        rw [hdig, hd0] at this
        simp [Nat.ofDigits] at this
        exact hk this.symm
      · simp at this
  intro m n h
  by_cases hm : m = 0 <;> by_cases hn : n = 0
  · omega
  · exact absurd h.symm (by subst hm; simpa [decChars] using key n hn)
  · exact absurd h (by subst hn; simpa [decChars] using key m hm)
  · unfold decChars at h
    rw [if_neg hm, if_neg hn] at h
    have hmap : (Nat.digits 10 m).map Nat.digitChar = (Nat.digits 10 n).map Nat.digitChar := by
      have := congrArg List.reverse h
      simpa using this
    have hdg : Nat.digits 10 m = Nat.digits 10 n :=
      map_digitChar_inj _ _ (fun d hd => Nat.digits_lt_base (by norm_num) hd)
        (fun d hd => Nat.digits_lt_base (by norm_num) hd) hmap
    have := congrArg (Nat.ofDigits 10) hdg
    rwa [Nat.ofDigits_digits, Nat.ofDigits_digits] at this

theorem repr_inj {m n : Nat} (h : Nat.repr m = Nat.repr n) : m = n := by
  apply decChars_inj
  have := congrArg String.data h
  rwa [data_repr, data_repr] at this

theorem dash_not_mem_repr (n : Nat) : '-' ∉ (Nat.repr n).data := by
  rw [data_repr]; exact dash_not_mem_decChars n

/-- Cancellation around a separator character: if the separator occurs in
neither prefix, splitting at its first occurrence is unambiguous. -/
theorem append_sep_cancel : ∀ (xs ys zs ws : List Char) (c : Char), c ∉ xs → c ∉ ys →
    xs ++ c :: zs = ys ++ c :: ws → xs = ys ∧ zs = ws := by
  intro xs
  induction xs with
  | nil =>
    intro ys zs ws c _ hy h
    cases ys with
    | nil => simpa using h
    | cons y ys =>
      simp only [List.nil_append, List.cons_append, List.cons.injEq] at h
      exact absurd (by simp [h.1]) hy
  | cons x xs ih =>
    intro ys zs ws c hx hy h
    cases ys with
    | nil =>
      simp only [List.nil_append, List.cons_append, List.cons.injEq] at h
      exact absurd (by simp [h.1]) hx
    | cons y ys =>
      simp only [List.cons_append, List.cons.injEq] at h
      obtain ⟨rfl, h2⟩ := h
      have := ih ys zs ws c (fun hc => hx (by simp [hc])) (fun hc => hy (by simp [hc])) h2
      exact ⟨by rw [this.1], this.2⟩

/-! ### Data model (`lib/types.ts`, `lib/utils.ts`)

`Presentation = { title, slides }`, `Slide = { id, background, objects,
fabricState? }`.  Scene-object descriptors are the fabric-serialized
records; the fields below are the ones the editor and the PPTX converter
read or write.  JS numbers are modelled by `Rat` (the converter divides
EMU coordinates by 12700; none of the claims depends on float rounding),
absent (`undefined`) fields by `Option`. -/

structure FabricObject where
  id : String
  type : String
  left : Rat := 0
  top : Rat := 0
  width : Rat := 0
  height : Rat := 0
  fill : String := ""
  selectable : Bool := true
  hasControls : Bool := true
  stroke : Option String := none
  strokeWidth : Option Rat := none
  text : Option String := none
  fontSize : Option Rat := none
  fontFamily : Option String := none
  fontWeight : Option String := none
  fontStyle : Option String := none
  textAlign : Option String := none
  src : Option String := none
  -- `none` for `radius` models "absent or NaN" (the NaN arises only in the
  -- JS fallback `shape.radius || shape.width / 2` when `width` is undefined)
  radius : Option Rat := none
  originX : Option String := none
  originY : Option String := none
deriving DecidableEq

/-- Serialized canvas snapshot (`fabricState`) as written by
`saveCanvasState`. -/
structure FabricState where
  version : String
  objects : List FabricObject
  background : String
deriving DecidableEq

structure Slide where
  id : String
  background : String
  objects : List FabricObject
  fabricState : Option FabricState := none
deriving DecidableEq

structure Presentation where
  title : String
  slides : List Slide
deriving DecidableEq

/-- `createEmptySlide` from `lib/utils.ts`.  The source calls `uuidv4()`;
we pass the generated UUID explicitly, and the state machine below assumes
only that a freshly generated UUID differs from the ids currently in use. -/
def createEmptySlide (uuid : String) : Slide :=
  { id := uuid, background := "#ffffff", objects := [] }

/-- `clonePresentation` from `lib/utils.ts`: `JSON.parse(JSON.stringify(p))`.
On pure values the deep copy is the identity; this is justified by
`cloneJson_eq` on the JSON-tree model above. -/
def clonePresentation (p : Presentation) : Presentation := p

/-- `cloneSlide` from `lib/utils.ts`, with the same justification. -/
def cloneSlide (s : Slide) : Slide := s

/-! ### PPTX import (`src/components/pptx-converter.ts`)

The intermediate JSON produced by `extractPptxToJson` and the converter
`convertPptxJsonToFabric`.  `Date.now()` is the parameter `now`;
`Math.random().toString(36).substring(2, 8)` is the oracle `rnd`,
indexed by slide and shape position. -/

structure PptxShape where
  type : String
  text : Option String := none
  src : Option String := none
  left : Option Rat := none
  top : Option Rat := none
  width : Option Rat := none
  height : Option Rat := none
  color : Option String := none
  fill : Option String := none
  stroke : Option String := none
  strokeWidth : Option Rat := none
  fontSize : Option Rat := none
  fontFamily : Option String := none
  fontWeight : Option String := none
  fontStyle : Option String := none
  textAlign : Option String := none
  radius : Option Rat := none
deriving DecidableEq

structure PptxSlide where
  background : Option String := none
  shapes : List PptxShape
deriving DecidableEq

structure PptxJson where
  title : Option String := none
  slides : List PptxSlide
deriving DecidableEq

/-- JS `a || d` for a string-valued `a` (`undefined`, `null` and `""` are
falsy). -/
def jsOrStr : Option String → String → String
  | some s, d => if s = "" then d else s
  | none, d => d

/-- JS `a || d` for a number-valued `a` (`undefined`, `0` and `NaN` are
falsy). -/
def jsOrNum : Option Rat → Rat → Rat
  | some x, d => if x = 0 then d else x
  | none, d => d

/-- `shape.width > 0 ? shape.width : dflt` (a comparison against
`undefined` is false, so an absent extent also takes the default). -/
def extentOrDefault (x : Option Rat) (dflt : Rat) : Rat :=
  match x with
  | some w => if 0 < w then w else dflt
  | none => dflt

/-- One scene object of `convertPptxJsonToFabric` (the `baseObj` spread
plus the `switch` on `shape.type`). -/
def fabricObjOfShape (oid : String) (shape : PptxShape) : FabricObject :=
  let l := jsOrNum shape.left 0
  let t := jsOrNum shape.top 0
  let w := extentOrDefault shape.width 100
  let h := extentOrDefault shape.height 50
  let f := jsOrStr shape.color (jsOrStr shape.fill "#000000")
  if shape.type = "text" then
    { id := oid, type := "textbox", left := l, top := t, width := w, height := h, fill := f,
      text := some (jsOrStr shape.text ""),
      fontSize := some (jsOrNum shape.fontSize 18),
      fontFamily := some (jsOrStr shape.fontFamily "Arial"),
      fontWeight := some (jsOrStr shape.fontWeight "normal"),
      fontStyle := some (jsOrStr shape.fontStyle "normal"),
      textAlign := some (jsOrStr shape.textAlign "left") }
  else if shape.type = "image" then
    { id := oid, type := "image", left := l, top := t, width := w, height := h, fill := f,
      src := shape.src }
  else if shape.type = "circle" then
    { id := oid, type := "circle", left := l, top := t, width := w, height := h, fill := f,
      radius := (match shape.radius with
        | some r => if r = 0 then shape.width.map (fun x => x / 2) else some r
        | none => shape.width.map (fun x => x / 2)),
      originX := some "center", originY := some "center" }
  else
    { id := oid, type := "rect", left := l, top := t, width := w, height := h, fill := f,
      stroke := some (jsOrStr shape.stroke "transparent"),
      strokeWidth := some (jsOrNum shape.strokeWidth 0) }

/-- The id assigned to the `index`-th imported slide:
`` `slide-${index}-${Date.now()}` ``. -/
def importSlideId (index now : Nat) : String :=
  "slide-" ++ Nat.repr index ++ "-" ++ Nat.repr now

/-- The objects of one imported slide
(`slide.shapes.map(shape => ...)`, object ids
`` `${shape.type}-${Date.now()}-${random}` ``). -/
def convertShapes (now : Nat) (rnd : Nat → String) : Nat → List PptxShape → List FabricObject
  | _, [] => []
  | j, shp :: rest =>
      fabricObjOfShape (shp.type ++ "-" ++ Nat.repr now ++ "-" ++ rnd j) shp ::
        convertShapes now rnd (j + 1) rest

/-- `pptxJson.slides.map((slide, index) => ...)` of
`convertPptxJsonToFabric`. -/
def convertSlides (now : Nat) (rnd : Nat → Nat → String) : Nat → List PptxSlide → List Slide
  | _, [] => []
  | i, sl :: rest =>
      { id := importSlideId i now
        background := jsOrStr sl.background "#FFFFFF"
        objects := convertShapes now (rnd i) 0 sl.shapes
        fabricState := none } :: convertSlides now rnd (i + 1) rest

/-- `convertPptxJsonToFabric` from `src/components/pptx-converter.ts`. -/
def convertPptxJsonToFabric (now : Nat) (rnd : Nat → Nat → String) (json : PptxJson) :
    Presentation :=
  { title := jsOrStr json.title "Untitled Presentation"
    slides := convertSlides now rnd 0 json.slides }

theorem importSlideId_inj {i j t : Nat} (h : importSlideId i t = importSlideId j t) :
    i = j := by
  have hd := congrArg String.data h
  simp only [importSlideId, String.data_append, List.append_assoc] at hd
  have hd2 : (Nat.repr i).data ++ '-' :: (Nat.repr t).data =
      (Nat.repr j).data ++ '-' :: (Nat.repr t).data := by
    have := List.append_cancel_left hd
    simpa using this
  have := append_sep_cancel _ _ _ _ '-' (dash_not_mem_repr i) (dash_not_mem_repr j) hd2
  exact decChars_inj i j (by rw [← data_repr, ← data_repr]; exact this.1)

theorem convertSlides_mem_id (now : Nat) (rnd : Nat → Nat → String) :
    ∀ (l : List PptxSlide) (start : Nat) (sl : Slide), sl ∈ convertSlides now rnd start l →
      ∃ k, start ≤ k ∧ sl.id = importSlideId k now := by
  intro l
  induction l with
  | nil => intro start sl h; simp [convertSlides] at h
  | cons x xs ih =>
    intro start sl h
    rw [convertSlides] at h
    rcases List.mem_cons.mp h with h | h
    · exact ⟨start, le_refl _, by rw [h]⟩
    · obtain ⟨k, hk, hid⟩ := ih (start + 1) sl h
      exact ⟨k, by omega, hid⟩

theorem convertSlides_nodup_ids (now : Nat) (rnd : Nat → Nat → String) :
    ∀ (l : List PptxSlide) (start : Nat),
      ((convertSlides now rnd start l).map Slide.id).Nodup := by
  intro l
  induction l with
  | nil => intro start; simp [convertSlides]
  | cons x xs ih =>
    intro start
    rw [convertSlides]
    simp only [List.map_cons, List.nodup_cons]
    refine ⟨?_, ih (start + 1)⟩
    intro hmem
    rw [List.mem_map] at hmem
    obtain ⟨sl, hsl, hid⟩ := hmem
    obtain ⟨k, hk, hid2⟩ := convertSlides_mem_id now rnd xs (start + 1) sl hsl
    have : k = start := importSlideId_inj (by rw [← hid2, hid])
    omega

/-- Imported slide ids are pairwise distinct. -/
theorem convert_nodup_ids (now : Nat) (rnd : Nat → Nat → String) (json : PptxJson) :
    ((convertPptxJsonToFabric now rnd json).slides.map Slide.id).Nodup :=
  convertSlides_nodup_ids now rnd json.slides 0

theorem convertSlides_length (now : Nat) (rnd : Nat → Nat → String) :
    ∀ (l : List PptxSlide) (start : Nat), (convertSlides now rnd start l).length = l.length := by
  intro l
  induction l with
  | nil => intro start; simp [convertSlides]
  | cons x xs ih => intro start; rw [convertSlides]; simp [ih]

theorem convert_slides_ne_nil (now : Nat) (rnd : Nat → Nat → String) (json : PptxJson)
    (h : json.slides ≠ []) : (convertPptxJsonToFabric now rnd json).slides ≠ [] := by
  intro hc
  apply h
  have := congrArg List.length hc
  rw [convertPptxJsonToFabric] at hc
  simp only [convertPptxJsonToFabric] at this
  rw [convertSlides_length] at this
  exact List.length_eq_zero.mp this

/-! ### Editor state machine (`src/components/editor.tsx`)

The component state relevant to the claims: the live `presentation`,
`currentSlideIndex`, the `history` of snapshots and the cursor
`historyIndex`.  We start from the state right after the history-init
effect ran (`history = [clone(presentation)]`, `historyIndex = 0`), which
is why the cursor is a `Nat` (it is `-1` only before that effect). -/

structure EditorState where
  presentation : Presentation
  currentSlideIndex : Nat
  history : List Presentation
  historyIndex : Nat
deriving DecidableEq

namespace Editor

/-- Total lookup `history[i]`.  For reachable states the cursor stays in
bounds, so the fallback is never consulted. -/
def snapAt (h : List Presentation) (i : Nat) : Presentation :=
  (h[i]?).getD { title := "", slides := [] }

/-- The history update of `updatePresentation` (editor.tsx:97-104):
truncate the redo tail (`history.slice(0, historyIndex + 1)`), push a
deep-copied snapshot, and `shift()` the oldest entry out when the length
passes 50. -/
def pushSnap (h : List Presentation) (i : Nat) (p : Presentation) : List Presentation :=
  let newHistory := h.take (i + 1) ++ [clonePresentation p]
  if 50 < newHistory.length then newHistory.tail else newHistory

/-- `updatePresentation` (editor.tsx:94-108). -/
def updatePresentation (s : EditorState) (newPresentation : Presentation) : EditorState :=
  { presentation := newPresentation
    currentSlideIndex := s.currentSlideIndex
    history := pushSnap s.history s.historyIndex newPresentation
    historyIndex := (pushSnap s.history s.historyIndex newPresentation).length - 1 }

/-- `addSlide` (editor.tsx:51-58); `uuid` is the fresh id produced by
`uuidv4()` inside `createEmptySlide`. -/
def addSlide (s : EditorState) (uuid : String) : EditorState :=
  let newPresentation := { clonePresentation s.presentation with
    slides := s.presentation.slides ++ [createEmptySlide uuid] }
  let s1 := updatePresentation s newPresentation
  { s1 with currentSlideIndex := newPresentation.slides.length - 1 }

/-- `deleteSlide` (editor.tsx:61-73).  The filter
`(_, index) => index !== currentSlideIndex` removes exactly the
`currentSlideIndex`-th element, i.e. it is `eraseIdx`. -/
def deleteSlide (s : EditorState) : EditorState :=
  if s.presentation.slides.length ≤ 1 then s
  else
    let newPresentation := { clonePresentation s.presentation with
      slides := s.presentation.slides.eraseIdx s.currentSlideIndex }
    let s1 := updatePresentation s newPresentation
    if newPresentation.slides.length ≤ s1.currentSlideIndex then
      { s1 with currentSlideIndex := newPresentation.slides.length - 1 }
    else s1

/-- `reorderSlides` (editor.tsx:76-91): `splice(fromIndex, 1)` removes the
moved slide, `splice(toIndex, 0, moved)` reinserts it, then the displayed
index is adjusted.  The UI only calls this with indices of existing
slides (`none` would splice `undefined` in). -/
def reorderSlides (s : EditorState) (fromIndex toIndex : Nat) : EditorState :=
  match s.presentation.slides[fromIndex]? with
  | none => s
  | some movedSlide =>
    let newPresentation := { clonePresentation s.presentation with
      slides := (s.presentation.slides.eraseIdx fromIndex).insertIdx toIndex movedSlide }
    let s1 := updatePresentation s newPresentation
    let cur := s.currentSlideIndex
    if cur = fromIndex then { s1 with currentSlideIndex := toIndex }
    else if fromIndex < cur ∧ cur ≤ toIndex then { s1 with currentSlideIndex := cur - 1 }
    else if cur < fromIndex ∧ toIndex ≤ cur then { s1 with currentSlideIndex := cur + 1 }
    else s1

/-- `undo` (editor.tsx:111-116). -/
def undo (s : EditorState) : EditorState :=
  if 0 < s.historyIndex then
    { s with historyIndex := s.historyIndex - 1
             presentation := clonePresentation (snapAt s.history (s.historyIndex - 1)) }
  else s

/-- `redo` (editor.tsx:119-124). -/
def redo (s : EditorState) : EditorState :=
  if s.historyIndex < s.history.length - 1 then
    { s with historyIndex := s.historyIndex + 1
             presentation := clonePresentation (snapAt s.history (s.historyIndex + 1)) }
  else s

/-- `createNewPresentation` (editor.tsx:127-136). -/
def createNewPresentation (uuid : String) : EditorState :=
  let p : Presentation := { title := "Untitled Presentation", slides := [createEmptySlide uuid] }
  { presentation := p, currentSlideIndex := 0
    history := [clonePresentation p], historyIndex := 0 }

/-- `setFullPresentation` (editor.tsx:147-152), used by the title-change
handler and PPTX import. -/
def setFullPresentation (p : Presentation) : EditorState :=
  { presentation := clonePresentation p, currentSlideIndex := 0
    history := [clonePresentation p], historyIndex := 0 }

/-- `updateCurrentSlide` (editor.tsx:139-144). -/
def updateCurrentSlide (s : EditorState) (updatedSlide : Slide) : EditorState :=
  let newPresentation := { clonePresentation s.presentation with
    slides := s.presentation.slides.set s.currentSlideIndex (cloneSlide updatedSlide) }
  updatePresentation s newPresentation

/-- Mount state after the history-init effect (editor.tsx:13-30). -/
def initState (uuid : String) : EditorState :=
  let p : Presentation := { title := "Untitled Presentation", slides := [createEmptySlide uuid] }
  { presentation := p, currentSlideIndex := 0
    history := [clonePresentation p], historyIndex := 0 }

/-- Ids currently in use by the live presentation. -/
def usedIds (s : EditorState) : List String := s.presentation.slides.map Slide.id

/-- One user-visible editor operation.  Hypotheses record what the UI
guarantees at each call site: `uuidv4()` produces an id not in use,
drag-and-drop passes indices of rendered slides, the slide editor and the
toolbar update the current slide keeping its id, and an imported
presentation has at least one slide (`extractPptxToJson` throws on zero
slides). -/
inductive Step : EditorState → EditorState → Prop where
  | addSlide (s : EditorState) (uuid : String) (h : uuid ∉ usedIds s) :
      Step s (Editor.addSlide s uuid)
  | deleteSlide (s : EditorState) : Step s (Editor.deleteSlide s)
  | reorderSlides (s : EditorState) (f t : Nat) (hf : f < s.presentation.slides.length)
      (ht : t < s.presentation.slides.length) : Step s (Editor.reorderSlides s f t)
  | updateCurrentSlide (s : EditorState) (sl : Slide)
      (hc : s.currentSlideIndex < s.presentation.slides.length)
      (hid : sl.id = (s.presentation.slides.get ⟨s.currentSlideIndex, hc⟩).id) :
      Step s (Editor.updateCurrentSlide s sl)
  | undo (s : EditorState) : Step s (Editor.undo s)
  | redo (s : EditorState) : Step s (Editor.redo s)
  | createNew (s : EditorState) (uuid : String) : Step s (createNewPresentation uuid)
  | titleChange (s : EditorState) (t : String) :
      Step s (setFullPresentation { s.presentation with title := t })
  | importPptx (s : EditorState) (now : Nat) (rnd : Nat → Nat → String) (json : PptxJson)
      (hne : json.slides ≠ []) :
      Step s (setFullPresentation (convertPptxJsonToFabric now rnd json))

/-- States reachable from a fresh mount. -/
def Reachable (s : EditorState) : Prop :=
  ∃ uuid0, Relation.ReflTransGen Step (initState uuid0) s

/-- A presentation the editor can hold: nonempty slide list, distinct ids. -/
def GoodPres (p : Presentation) : Prop :=
  p.slides ≠ [] ∧ (p.slides.map Slide.id).Nodup

/-- The editor-state invariant. -/
def Inv (s : EditorState) : Prop :=
  s.history ≠ [] ∧ s.history.length ≤ 50 ∧ s.historyIndex < s.history.length ∧
    GoodPres s.presentation ∧ ∀ p ∈ s.history, GoodPres p

end Editor

/-! ### List helper lemmas for the reorder permutation argument -/

theorem insertIdx_perm (x : α) : ∀ (n : Nat) (l : List α), n ≤ l.length →
    List.Perm (List.insertIdx n x l) (x :: l) := by
  intro n
  induction n with
  | zero => intro l _; rw [List.insertIdx_zero]
  | succ n ih =>
    intro l hn
    cases l with
    | nil => simp at hn
    | cons hd tl =>
      rw [List.insertIdx_succ_cons]
      exact ((ih tl (by simpa using hn)).cons hd).trans (List.Perm.swap x hd tl)

theorem erase_get_perm (l : List α) (f : Nat) (hf : f < l.length) :
    List.Perm l (l.get ⟨f, hf⟩ :: l.eraseIdx f) := by
  conv_lhs => rw [← List.take_append_drop f l]
  rw [List.eraseIdx_eq_take_drop_succ]
  have hdrop : l.drop f = l.get ⟨f, hf⟩ :: l.drop (f + 1) := by
    rw [← List.getElem_cons_drop l f hf]; rfl
  rw [hdrop]
  exact List.perm_middle

theorem reorder_perm (l : List α) (f t : Nat) (hf : f < l.length) (ht : t < l.length) :
    List.Perm ((l.eraseIdx f).insertIdx t (l.get ⟨f, hf⟩)) l := by
  have hlen : (l.eraseIdx f).length = l.length - 1 := List.length_eraseIdx_of_lt hf
  have ht' : t ≤ (l.eraseIdx f).length := by omega
  exact (insertIdx_perm _ t _ ht').trans (erase_get_perm l f hf).symm

theorem set_get_self (l : List α) (n : Nat) (hn : n < l.length) :
    l.set n (l.get ⟨n, hn⟩) = l := by
  apply List.ext_getElem
  · simp
  · intro i h1 h2
    rw [List.getElem_set]
    split
    · next h => subst h; rfl
    · rfl

namespace Editor

theorem goodPres_snapAt {s : EditorState} (hinv : Inv s) {i : Nat}
    (hi : i < s.history.length) : GoodPres (snapAt s.history i) := by
  obtain ⟨-, -, -, -, hall⟩ := hinv
  have : s.history[i]? = some s.history[i] := List.getElem?_eq_getElem hi
  rw [snapAt, this]
  exact hall _ (List.getElem_mem hi)

theorem pushSnap_length_pos (h : List Presentation) (i : Nat) (p : Presentation) :
    0 < (pushSnap h i p).length := by
  rw [pushSnap]
  split
  · next hcap =>
    simp only [List.length_tail, List.length_append, List.length_take,
      List.length_singleton] at hcap ⊢
    omega
  · simp

theorem pushSnap_length_le (h : List Presentation) (i : Nat) (p : Presentation)
    (hle : h.length ≤ 50) : (pushSnap h i p).length ≤ 50 := by
  rw [pushSnap]
  have : (h.take (i + 1)).length ≤ h.length := by
    simp only [List.length_take]
    exact min_le_right _ _
  split
  · next hcap =>
    simp only [List.length_tail, List.length_append, List.length_singleton] at hcap ⊢
    omega
  · next hcap =>
    simp only [List.length_append, List.length_singleton] at hcap ⊢
    omega

theorem pushSnap_mem (h : List Presentation) (i : Nat) (p : Presentation) :
    ∀ q ∈ pushSnap h i p, q ∈ h ∨ q = p := by
  intro q hq
  rw [pushSnap] at hq
  have hq' : q ∈ h.take (i + 1) ++ [clonePresentation p] := by
    revert hq
    split
    · exact List.mem_of_mem_tail
    · exact id
  rcases List.mem_append.mp hq' with hmem | hmem
  · exact Or.inl (List.take_subset _ _ hmem)
  · simp only [clonePresentation, List.mem_singleton] at hmem
    exact Or.inr hmem

theorem updatePresentation_inv {s : EditorState} {p : Presentation}
    (hs : Inv s) (hp : GoodPres p) : Inv (updatePresentation s p) := by
  obtain ⟨hne, hle, hidx, hgood, hall⟩ := hs
  refine ⟨?_, ?_, ?_, hp, ?_⟩
  · show pushSnap s.history s.historyIndex p ≠ []
    rw [← List.length_pos]
    exact pushSnap_length_pos _ _ _
  · exact pushSnap_length_le _ _ _ hle
  · show (pushSnap s.history s.historyIndex p).length - 1 <
      (pushSnap s.history s.historyIndex p).length
    have := pushSnap_length_pos s.history s.historyIndex p
    omega
  · intro q hq
    rcases pushSnap_mem s.history s.historyIndex p q hq with hmem | hmem
    · exact hall q hmem
    · exact hmem ▸ hp

theorem step_inv {s s' : EditorState} (hs : Inv s) (hstep : Step s s') : Inv s' := by
  cases hstep with
  | addSlide uuid hfresh =>
    have hgood : GoodPres { clonePresentation s.presentation with
        slides := s.presentation.slides ++ [createEmptySlide uuid] } := by
      constructor
      · simp [clonePresentation]
      · simp only [clonePresentation, List.map_append, List.map_cons, List.map_nil]
        rw [(List.perm_append_singleton _ _).nodup_iff, List.nodup_cons]
        exact ⟨hfresh, hs.2.2.2.1.2⟩
    exact updatePresentation_inv hs hgood
  | deleteSlide =>
    rw [Editor.deleteSlide]
    split
    · exact hs
    · next hlen =>
      have hlen2 : 2 ≤ s.presentation.slides.length := by omega
      have hgood : GoodPres { clonePresentation s.presentation with
          slides := s.presentation.slides.eraseIdx s.currentSlideIndex } := by
        constructor
        · rw [← List.length_pos]
          have := List.le_length_eraseIdx s.presentation.slides s.currentSlideIndex
          simp only [clonePresentation]
          omega
        · simp only [clonePresentation]
          exact hs.2.2.2.1.2.sublist
            ((List.eraseIdx_sublist s.presentation.slides s.currentSlideIndex).map Slide.id)
      have h1 := updatePresentation_inv hs hgood
      dsimp only
      split
      · exact h1
      · exact h1
  | reorderSlides f t hf ht =>
    rw [Editor.reorderSlides]
    rw [List.getElem?_eq_getElem hf]
    dsimp only
    have hperm := reorder_perm s.presentation.slides f t hf ht
    have hgood : GoodPres { clonePresentation s.presentation with
        slides := (s.presentation.slides.eraseIdx f).insertIdx t
          (s.presentation.slides.get ⟨f, hf⟩) } := by
      constructor
      · rw [← List.length_pos, hperm.length_eq]
        omega
      · simp only [clonePresentation]
        rw [(hperm.map Slide.id).nodup_iff]
        exact hs.2.2.2.1.2
    have h1 := updatePresentation_inv hs hgood
    have h1' : Inv (updatePresentation s { clonePresentation s.presentation with
        slides := (s.presentation.slides.eraseIdx f).insertIdx t
          s.presentation.slides[f] }) := h1
    split
    · exact h1'
    · split
      · exact h1'
      · split
        · exact h1'
        · exact h1'
  | updateCurrentSlide sl hc hid =>
    have hgood : GoodPres { clonePresentation s.presentation with
        slides := s.presentation.slides.set s.currentSlideIndex (cloneSlide sl) } := by
      have hset : (s.presentation.slides.set s.currentSlideIndex (cloneSlide sl)).map Slide.id
          = s.presentation.slides.map Slide.id := by
        rw [cloneSlide, List.map_set, hid]
        have : (s.presentation.slides.map Slide.id).get
            ⟨s.currentSlideIndex, by simpa using hc⟩ =
            (s.presentation.slides.get ⟨s.currentSlideIndex, hc⟩).id := by
          simp
        rw [← this, set_get_self]
      constructor
      · rw [← List.length_pos, List.length_set]
        have := List.length_pos.mpr hs.2.2.2.1.1
        simpa using this
      · simp only [clonePresentation]
        rw [hset]
        exact hs.2.2.2.1.2
    exact updatePresentation_inv hs hgood
  | undo =>
    rw [Editor.undo]
    split
    · next hpos =>
      obtain ⟨hne, hle, hidx, hgood, hall⟩ := hs
      exact ⟨hne, hle, (by omega : s.historyIndex - 1 < s.history.length),
        goodPres_snapAt ⟨hne, hle, hidx, hgood, hall⟩ (by omega), hall⟩
    · exact hs
  | redo =>
    rw [Editor.redo]
    split
    · next hlt =>
      obtain ⟨hne, hle, hidx, hgood, hall⟩ := hs
      have hlen_pos : 0 < s.history.length := List.length_pos.mpr hne
      exact ⟨hne, hle, (by omega : s.historyIndex + 1 < s.history.length),
        goodPres_snapAt ⟨hne, hle, hidx, hgood, hall⟩ (by omega), hall⟩
    · exact hs
  | createNew uuid =>
    have hgood : GoodPres { title := "Untitled Presentation", slides := [createEmptySlide uuid] } :=
      ⟨by simp, by simp⟩
    refine ⟨?_, ?_, ?_, hgood, ?_⟩
    · simp [createNewPresentation, clonePresentation]
    · simp [createNewPresentation, clonePresentation]
    · simp [createNewPresentation, clonePresentation]
    · intro p hp
      simp only [createNewPresentation, clonePresentation, List.mem_singleton] at hp
      exact hp ▸ hgood
  | titleChange t =>
    have hgood : GoodPres { s.presentation with title := t } :=
      ⟨hs.2.2.2.1.1, hs.2.2.2.1.2⟩
    refine ⟨?_, ?_, ?_, hgood, ?_⟩
    · simp [setFullPresentation, clonePresentation]
    · simp [setFullPresentation, clonePresentation]
    · simp [setFullPresentation, clonePresentation]
    · intro p hp
      simp only [setFullPresentation, clonePresentation, List.mem_singleton] at hp
      exact hp ▸ hgood
  | importPptx now rnd json hne =>
    have hgood : GoodPres (convertPptxJsonToFabric now rnd json) :=
      ⟨convert_slides_ne_nil now rnd json hne, convert_nodup_ids now rnd json⟩
    refine ⟨?_, ?_, ?_, hgood, ?_⟩
    · simp [setFullPresentation, clonePresentation]
    · simp [setFullPresentation, clonePresentation]
    · simp [setFullPresentation, clonePresentation]
    · intro p hp
      simp only [setFullPresentation, clonePresentation, List.mem_singleton] at hp
      exact hp ▸ hgood

theorem initState_inv (uuid : String) : Inv (initState uuid) := by
  have hgood : GoodPres { title := "Untitled Presentation", slides := [createEmptySlide uuid] } :=
    ⟨by simp, by simp⟩
  refine ⟨?_, ?_, ?_, hgood, ?_⟩
  · simp [initState, clonePresentation]
  · simp [initState, clonePresentation]
  · simp [initState, clonePresentation]
  · intro p hp
    simp only [initState, clonePresentation, List.mem_singleton] at hp
    exact hp ▸ hgood

/-- Every reachable editor state satisfies the invariant. -/
theorem reachable_inv {s : EditorState} (h : Reachable s) : Inv s := by
  obtain ⟨uuid0, hsteps⟩ := h
  induction hsteps with
  | refl => exact initState_inv uuid0
  | tail _ hstep ih => exact step_inv ih hstep

end Editor

/-! ### Context-provider variant (`PresentationProvider`, concatenated into
`src/lib/types.ts`)

The provider keeps the same state plus a per-slide render cache
(`slideCacheRef`, keyed by slide id) and the `isChangingSlide` transition
flag; its history cap is 30. -/

namespace Ctx

/-- The history block of the provider's `saveCanvasState` (its lines
219-231): truncate the redo tail, push a snapshot; on overflow past 30,
`shift()` and keep the cursor (`setHistoryIndex(historyIndex)`). -/
def saveCanvasStateHistory (history : List Presentation) (historyIndex : Nat)
    (p : Presentation) : List Presentation × Nat :=
  let newHistory := history.take (historyIndex + 1) ++ [clonePresentation p]
  if 30 < newHistory.length then (newHistory.tail, historyIndex)
  else (newHistory, newHistory.length - 1)

/-- The history block of the provider's `updatePresentation` (lines
499-507): as above, but the overflow cursor is `Math.max(0, historyIndex)`
(the same value, once the history is initialized and the cursor is a
natural number). -/
def updatePresentationHistory (history : List Presentation) (historyIndex : Nat)
    (p : Presentation) : List Presentation × Nat :=
  let newHistory := history.take (historyIndex + 1) ++ [clonePresentation p]
  if 30 < newHistory.length then (newHistory.tail, max 0 historyIndex)
  else (newHistory, newHistory.length - 1)

/-- Provider state: editor state plus the render cache and the
slide-transition flag. -/
structure CtxState where
  presentation : Presentation
  currentSlideIndex : Nat
  history : List Presentation
  historyIndex : Nat
  cache : List (String × FabricState)
  isChangingSlide : Bool
deriving DecidableEq

/-- The provider's `updatePresentation` (lines 492-515): set the live
presentation; update the history only when no slide transition is in
flight. -/
def updatePresentation (s : CtxState) (p : Presentation) : CtxState :=
  if s.isChangingSlide then { s with presentation := p }
  else
    let hi := updatePresentationHistory s.history s.historyIndex p
    { s with presentation := p, history := hi.1, historyIndex := hi.2 }

/-- Fallback slide for the total modelling of `slides[i]`; never consulted
at the call sites below (the index is guarded). -/
def defaultSlide : Slide := { id := "", background := "", objects := [] }

/-- The provider's `deleteSlide` (lines 558-578): guard on a single slide,
drop the cache entry of the current slide (`Map.delete`, i.e. remove the
unique entry with that key), splice the slide out, push to history, and
clamp the display index with `Math.min`. -/
def deleteSlide (s : CtxState) : CtxState :=
  if s.presentation.slides.length ≤ 1 then s
  else
    let slideId := ((s.presentation.slides[s.currentSlideIndex]?).getD defaultSlide).id
    let cache1 := s.cache.filter (fun e => e.1 ≠ slideId)
    let newPresentation := { clonePresentation s.presentation with
      slides := s.presentation.slides.eraseIdx s.currentSlideIndex }
    let s1 := updatePresentation { s with cache := cache1 } newPresentation
    { s1 with currentSlideIndex := min s.currentSlideIndex (newPresentation.slides.length - 1) }

end Ctx

/-! ### Debounced canvas persistence

The `object:modified` / `object:added` / `object:removed` listeners all
call `debouncedModification`, which clears any pending timer and arms a
new 300 ms one (presentation-context lines 395-402).  We model the
single-threaded timeline: given the sorted event times, a pending
deadline that has passed before the next event fires the handler once. -/

def fireTimes : List Nat → Option Nat → List Nat
  | [], none => []
  | [], some d => [d]
  | t :: ts, none => fireTimes ts (some (t + 300))
  | t :: ts, some d =>
      if d ≤ t then d :: fireTimes ts (some (t + 300))
      else fireTimes ts (some (t + 300))

/-- The times the debounced modification handler runs, for a sorted list
of `object:*` event times. -/
def debounceFires (ts : List Nat) : List Nat := fireTimes ts none

theorem fireTimes_burst :
    ∀ (ts : List Nat) (prev : Nat),
      List.Chain' (fun a b => a ≤ b ∧ b < a + 300) (prev :: ts) →
      fireTimes ts (some (prev + 300)) = [(prev :: ts).getLast (by simp) + 300] := by
  intro ts
  induction ts with
  | nil => intro prev _; simp [fireTimes]
  | cons t rest ih =>
    intro prev hchain
    rw [List.chain'_cons] at hchain
    obtain ⟨⟨hle, hlt⟩, hchain'⟩ := hchain
    rw [fireTimes, if_neg (by omega), ih t hchain']
    simp [List.getLast_cons]

/-! ### List index helpers for the reorder claims -/

theorem getElem?_eraseIdx_of_lt :
    ∀ (l : List α) (f j : Nat), j < f → (l.eraseIdx f)[j]? = l[j]? := by
  intro l
  induction l with
  | nil => intro f j _; simp
  | cons hd tl ih =>
    intro f j hj
    cases f with
    | zero => omega
    | succ f =>
      cases j with
      | zero => simp [List.eraseIdx_cons_succ]
      | succ j =>
        simp only [List.eraseIdx_cons_succ, List.getElem?_cons_succ]
        exact ih f j (by omega)

theorem getElem?_eraseIdx_of_ge :
    ∀ (l : List α) (f j : Nat), f < l.length → f ≤ j → (l.eraseIdx f)[j]? = l[j + 1]? := by
  intro l
  induction l with
  | nil => intro f j hf _; simp at hf
  | cons hd tl ih =>
    intro f j hf hj
    cases f with
    | zero => simp [List.eraseIdx_cons_zero]
    | succ f =>
      cases j with
      | zero => omega
      | succ j =>
        simp only [List.eraseIdx_cons_succ, List.getElem?_cons_succ]
        exact ih f j (by simpa using hf) (by omega)

theorem chain_le_getLast :
    ∀ (ts : List Nat) (hne : ts ≠ []),
      List.Chain' (fun a b => a ≤ b ∧ b < a + 300) ts →
      ∀ e ∈ ts, e ≤ ts.getLast hne := by
  intro ts
  induction ts with
  | nil => intro hne; exact absurd rfl hne
  | cons a rest ih =>
    intro _ hchain e he
    cases rest with
    | nil => simp at he; simp [he]
    | cons b rest' =>
      rw [List.chain'_cons] at hchain
      rw [List.getLast_cons (by simp)]
      rcases List.mem_cons.mp he with rfl | he'
      · exact le_trans hchain.1.1 (ih (by simp) hchain.2 b (by simp))
      · exact ih (by simp) hchain.2 e he'

theorem tail_append_singleton {l : List α} (x : α) (h : l ≠ []) :
    (l ++ [x]).tail = l.tail ++ [x] := by
  cases l with
  | nil => exact absurd rfl h
  | cons hd tl => rfl

namespace Editor

theorem pushSnap_overflow (h : List Presentation) (i : Nat) (p : Presentation)
    (hi : i + 1 = h.length) (hcap : h.length = 50) :
    pushSnap h i p = h.tail ++ [clonePresentation p] := by
  rw [pushSnap]
  have hne : h ≠ [] := by rw [← List.length_pos]; omega
  rw [hi, List.take_length]
  rw [if_pos (by simp; omega)]
  exact tail_append_singleton _ hne

theorem reorderSlides_pres (s : EditorState) (f t : Nat)
    (hf : f < s.presentation.slides.length) :
    (reorderSlides s f t).presentation.slides =
      (s.presentation.slides.eraseIdx f).insertIdx t
        (s.presentation.slides.get ⟨f, hf⟩) := by
  rw [reorderSlides, List.getElem?_eq_getElem hf]
  dsimp only
  split
  · rfl
  · split
    · rfl
    · split
      · rfl
      · rfl

theorem reorderSlides_history (s : EditorState) (f t : Nat)
    (hf : f < s.presentation.slides.length) :
    (reorderSlides s f t).history = pushSnap s.history s.historyIndex
      { clonePresentation s.presentation with
        slides := (s.presentation.slides.eraseIdx f).insertIdx t
          (s.presentation.slides.get ⟨f, hf⟩) } := by
  rw [reorderSlides, List.getElem?_eq_getElem hf]
  dsimp only
  split
  · rfl
  · split
    · rfl
    · split
      · rfl
      · rfl

theorem reorderSlides_cur (s : EditorState) (f t : Nat)
    (hf : f < s.presentation.slides.length) :
    (reorderSlides s f t).currentSlideIndex =
      if s.currentSlideIndex = f then t
      else if f < s.currentSlideIndex ∧ s.currentSlideIndex ≤ t then s.currentSlideIndex - 1
      else if s.currentSlideIndex < f ∧ t ≤ s.currentSlideIndex then s.currentSlideIndex + 1
      else s.currentSlideIndex := by
  rw [reorderSlides, List.getElem?_eq_getElem hf]
  dsimp only
  split
  · rfl
  · split
    · rfl
    · split
      · rfl
      · rfl

end Editor

/-- Where the moved element and the displayed element land after
remove-then-reinsert, with the source's index adjustment. -/
theorem reorder_index_get (l : List α) (f t cur : Nat) (hf : f < l.length)
    (ht : t < l.length) (hc : cur < l.length) (hft : f ≠ t) :
    ((l.eraseIdx f).insertIdx t (l.get ⟨f, hf⟩))[(if cur = f then t
        else if f < cur ∧ cur ≤ t then cur - 1
        else if cur < f ∧ t ≤ cur then cur + 1
        else cur : Nat)]? = some (l.get ⟨cur, hc⟩) := by
  have hel : (l.eraseIdx f).length = l.length - 1 := List.length_eraseIdx_of_lt hf
  have htl : t ≤ (l.eraseIdx f).length := by omega
  have hlen : ((l.eraseIdx f).insertIdx t (l.get ⟨f, hf⟩)).length = l.length := by
    rw [List.length_insertIdx _ _ htl, hel]
    omega
  split_ifs with h1 h2 h3
  · -- cur = f: the moved slide sits at t
    rw [List.getElem?_eq_getElem (by omega)]
    rw [List.getElem_insertIdx_self _ _ _ htl]
    subst h1
    rfl
  · -- f < cur ≤ t: shifted down by one
    obtain ⟨hfc, hct⟩ := h2
    have hb : cur - 1 < ((l.eraseIdx f).insertIdx t (l.get ⟨f, hf⟩)).length := by omega
    rw [List.getElem?_eq_getElem hb]
    rw [List.getElem_insertIdx_of_lt _ _ _ _ (by omega) (by omega)]
    rw [← List.getElem?_eq_getElem (show cur - 1 < (l.eraseIdx f).length from by omega)]
    rw [getElem?_eraseIdx_of_ge l f (cur - 1) (by omega) (by omega)]
    rw [show cur - 1 + 1 = cur from by omega]
    rw [List.getElem?_eq_getElem hc]
    rfl
  · -- t ≤ cur < f: shifted up by one
    obtain ⟨hcf, htc⟩ := h3
    obtain ⟨d, rfl⟩ : ∃ d, cur = t + d := ⟨cur - t, by omega⟩
    have hb : t + d + 1 < ((l.eraseIdx f).insertIdx t (l.get ⟨f, hf⟩)).length := by omega
    rw [List.getElem?_eq_getElem hb]
    rw [List.getElem_insertIdx_add_succ _ _ _ _ (by omega)]
    rw [← List.getElem?_eq_getElem (show t + d < (l.eraseIdx f).length from by omega)]
    rw [getElem?_eraseIdx_of_lt l f (t + d) (by omega)]
    rw [List.getElem?_eq_getElem hc]
    rfl
  · -- untouched index
    by_cases hcl : cur < t
    · -- below both the insertion point and f
      have hcf : cur < f := by omega
      have hb : cur < ((l.eraseIdx f).insertIdx t (l.get ⟨f, hf⟩)).length := by omega
      rw [List.getElem?_eq_getElem hb]
      rw [List.getElem_insertIdx_of_lt _ _ _ _ (by omega) (by omega)]
      rw [← List.getElem?_eq_getElem (show cur < (l.eraseIdx f).length from by omega)]
      rw [getElem?_eraseIdx_of_lt l f cur (by omega)]
      rw [List.getElem?_eq_getElem hc]
      rfl
    · -- above both f and t
      have hfc : f < cur := by omega
      have htc : t < cur := by omega
      obtain ⟨d, rfl⟩ : ∃ d, cur = t + d + 1 := ⟨cur - t - 1, by omega⟩
      have hb : t + d + 1 < ((l.eraseIdx f).insertIdx t (l.get ⟨f, hf⟩)).length := by omega
      rw [List.getElem?_eq_getElem hb]
      rw [List.getElem_insertIdx_add_succ _ _ _ _ (by omega)]
      rw [← List.getElem?_eq_getElem (show t + d < (l.eraseIdx f).length from by omega)]
      rw [getElem?_eraseIdx_of_ge l f (t + d) (by omega) (by omega)]
      rw [List.getElem?_eq_getElem (show t + d + 1 < l.length from by omega)]
      rfl

theorem convertShapes_mem (now : Nat) (rnd : Nat → String) :
    ∀ (l : List PptxShape) (j : Nat) (o : FabricObject), o ∈ convertShapes now rnd j l →
      ∃ oid shape, o = fabricObjOfShape oid shape := by
  intro l
  induction l with
  | nil => intro j o h; simp [convertShapes] at h
  | cons shp rest ih =>
    intro j o h
    rw [convertShapes] at h
    rcases List.mem_cons.mp h with h | h
    · exact ⟨_, shp, h⟩
    · exact ih (j + 1) o h

theorem convertSlides_mem_objects (now : Nat) (rnd : Nat → Nat → String) :
    ∀ (l : List PptxSlide) (i : Nat) (sl : Slide), sl ∈ convertSlides now rnd i l →
      ∀ o ∈ sl.objects, ∃ oid shape, o = fabricObjOfShape oid shape := by
  intro l
  induction l with
  | nil => intro i sl h; simp [convertSlides] at h
  | cons x xs ih =>
    intro i sl h o ho
    rw [convertSlides] at h
    rcases List.mem_cons.mp h with h | h
    · subst h
      exact convertShapes_mem now (rnd i) x.shapes 0 o ho
    · exact ih (i + 1) sl h o ho

/-! ### Witness fixtures -/

def slU : Slide := createEmptySlide "u"

def pT (t : String) : Presentation := { title := t, slides := [slU] }

def sW1 : EditorState :=
  { presentation := pT "b", currentSlideIndex := 0
    history := [pT "a", pT "b", pT "c"], historyIndex := 1 }

def pres3 : Presentation :=
  { title := "t", slides := [createEmptySlide "a", createEmptySlide "b", createEmptySlide "c"] }

def sW3 : EditorState :=
  { presentation := pres3, currentSlideIndex := 0, history := [pres3], historyIndex := 0 }

def csW1 : Ctx.CtxState :=
  { presentation := pT "x", currentSlideIndex := 0, history := [pT "x"], historyIndex := 0
    cache := [], isChangingSlide := false }

def csW2 : Ctx.CtxState :=
  { presentation := pres3, currentSlideIndex := 1, history := [pres3], historyIndex := 0
    cache := [], isChangingSlide := false }

def shW : PptxShape := { type := "text", width := some (-3) }

/-! ### The claims -/

/-- Claim C1: for every history `h` and cursor `i`, `undo` with `i > 0`
moves the cursor to `i - 1` and replaces the live presentation with a
deep copy of the snapshot `h[i-1]`, leaving `h` (and the displayed slide
index) unchanged; `redo` with `i < h.length - 1` symmetrically moves to
`i + 1` and installs a deep copy of `h[i+1]`; when the guard fails the
operation changes nothing. -/
theorem claim_C1_undo_redo (s : EditorState) :
    (0 < s.historyIndex →
      (Editor.undo s).historyIndex = s.historyIndex - 1 ∧
      (Editor.undo s).presentation =
        clonePresentation (Editor.snapAt s.history (s.historyIndex - 1)) ∧
      (Editor.undo s).history = s.history ∧
      (Editor.undo s).currentSlideIndex = s.currentSlideIndex) ∧
    (s.historyIndex = 0 → Editor.undo s = s) ∧
    (s.historyIndex < s.history.length - 1 →
      (Editor.redo s).historyIndex = s.historyIndex + 1 ∧
      (Editor.redo s).presentation =
        clonePresentation (Editor.snapAt s.history (s.historyIndex + 1)) ∧
      (Editor.redo s).history = s.history ∧
      (Editor.redo s).currentSlideIndex = s.currentSlideIndex) ∧
    (¬ s.historyIndex < s.history.length - 1 → Editor.redo s = s) := by
  refine ⟨?_, ?_, ?_, ?_⟩
  · intro h
    rw [Editor.undo, if_pos h]
    exact ⟨rfl, rfl, rfl, rfl⟩
  · intro h
    rw [Editor.undo, if_neg (by omega)]
  · intro h
    rw [Editor.redo, if_pos h]
    exact ⟨rfl, rfl, rfl, rfl⟩
  · intro h
    rw [Editor.redo, if_neg h]

theorem claim_C1_witness :
    0 < sW1.historyIndex ∧ sW1.historyIndex < sW1.history.length - 1 ∧
    (Editor.undo sW1).historyIndex = sW1.historyIndex - 1 ∧
    (Editor.undo sW1).history = sW1.history ∧
    (Editor.redo sW1).historyIndex = sW1.historyIndex + 1 :=
  ⟨by decide, by decide,
    ((claim_C1_undo_redo sW1).1 (by decide)).1,
    ((claim_C1_undo_redo sW1).1 (by decide)).2.2.1,
    ((claim_C1_undo_redo sW1).2.2.1 (by decide)).1⟩

/-- Claim C2: the history is a capped sequence of snapshots.  Along every
sequence of editor operations the editor.tsx history stays within its cap
of 50; the provider's `saveCanvasState` and `updatePresentation` history
blocks (cap 30, also inlined verbatim in its `addSlide` and
`reorderSlides`) preserve their cap; and in both, when appending a
snapshot would exceed the cap, the oldest snapshot is dropped and the new
one is kept. -/
theorem claim_C2_history_cap :
    (∀ s : EditorState, Editor.Reachable s → s.history.length ≤ 50) ∧
    (∀ (h : List Presentation) (i : Nat) (p : Presentation), h.length ≤ 30 →
      (Ctx.saveCanvasStateHistory h i p).1.length ≤ 30 ∧
      (Ctx.updatePresentationHistory h i p).1.length ≤ 30) ∧
    (∀ (h : List Presentation) (i : Nat) (p : Presentation), i + 1 = h.length →
      h.length = 50 → Editor.pushSnap h i p = h.tail ++ [clonePresentation p]) ∧
    (∀ (h : List Presentation) (i : Nat) (p : Presentation), i + 1 = h.length →
      h.length = 30 →
      (Ctx.saveCanvasStateHistory h i p).1 = h.tail ++ [clonePresentation p] ∧
      (Ctx.updatePresentationHistory h i p).1 = h.tail ++ [clonePresentation p]) := by
  have hcap : ∀ (h : List Presentation) (i : Nat),
      (h.take (i + 1)).length ≤ h.length := by
    intro h i
    simp only [List.length_take]
    exact min_le_right _ _
  have hover : ∀ (h : List Presentation) (i : Nat) (p : Presentation), i + 1 = h.length →
      h.length = 30 →
      h.take (i + 1) ++ [clonePresentation p] = h ++ [clonePresentation p] ∧
      30 < (h ++ [clonePresentation p]).length ∧ h ≠ [] := by
    intro h i p hi hlen
    rw [hi, List.take_length]
    refine ⟨rfl, by simp; omega, ?_⟩
    rw [← List.length_pos]; omega
  refine ⟨?_, ?_, ?_, ?_⟩
  · intro s hs
    exact (Editor.reachable_inv hs).2.1
  · intro h i p hle
    constructor
    · rw [Ctx.saveCanvasStateHistory]
      have := hcap h i
      split
      · next hc => simp only [List.length_tail, List.length_append, List.length_singleton] at hc ⊢; omega
      · next hc => simp only [List.length_append, List.length_singleton] at hc ⊢; omega
    · rw [Ctx.updatePresentationHistory]
      have := hcap h i
      split
      · next hc => simp only [List.length_tail, List.length_append, List.length_singleton] at hc ⊢; omega
      · next hc => simp only [List.length_append, List.length_singleton] at hc ⊢; omega
  · intro h i p hi hlen
    exact Editor.pushSnap_overflow h i p hi hlen
  · intro h i p hi hlen
    obtain ⟨heq, hgt, hne⟩ := hover h i p hi hlen
    constructor
    · rw [Ctx.saveCanvasStateHistory]
      simp only [heq]
      rw [if_pos hgt]
      exact tail_append_singleton _ hne
    · rw [Ctx.updatePresentationHistory]
      simp only [heq]
      rw [if_pos hgt]
      exact tail_append_singleton _ hne

theorem claim_C2_witness :
    Editor.Reachable (Editor.initState "u2") ∧
    (Editor.initState "u2").history.length ≤ 50 ∧
    [pT "a"].length ≤ 30 ∧
    (Ctx.saveCanvasStateHistory [pT "a"] 0 (pT "b")).1.length ≤ 30 :=
  have hr : Editor.Reachable (Editor.initState "u2") :=
    ⟨"u2", Relation.ReflTransGen.refl⟩
  ⟨hr, claim_C2_history_cap.1 _ hr, by decide,
    (claim_C2_history_cap.2.1 [pT "a"] 0 (pT "b") (by decide)).1⟩

/-- Claim C3: `reorderSlides(fromIndex, toIndex)` only permutes the slide
order: the resulting slide list is the original with the slide at
`fromIndex` removed and reinserted at `toIndex`, it is a permutation of
the original (so every slide record, in particular its `id`, is kept
unchanged), and the multiset of slide ids is preserved. -/
theorem claim_C3_reorder_permutes (s : EditorState) (f t : Nat)
    (hf : f < s.presentation.slides.length) (ht : t < s.presentation.slides.length) :
    (Editor.reorderSlides s f t).presentation.slides =
      (s.presentation.slides.eraseIdx f).insertIdx t (s.presentation.slides.get ⟨f, hf⟩) ∧
    List.Perm (Editor.reorderSlides s f t).presentation.slides s.presentation.slides ∧
    List.Perm ((Editor.reorderSlides s f t).presentation.slides.map Slide.id)
      (s.presentation.slides.map Slide.id) := by
  have hpres := Editor.reorderSlides_pres s f t hf
  have hperm : List.Perm (Editor.reorderSlides s f t).presentation.slides
      s.presentation.slides := by
    rw [hpres]
    exact reorder_perm s.presentation.slides f t hf ht
  exact ⟨hpres, hperm, hperm.map Slide.id⟩

theorem claim_C3_witness :
    0 < sW3.presentation.slides.length ∧ 2 < sW3.presentation.slides.length ∧
    List.Perm ((Editor.reorderSlides sW3 0 2).presentation.slides.map Slide.id)
      (sW3.presentation.slides.map Slide.id) :=
  ⟨by decide, by decide,
    (claim_C3_reorder_permutes sW3 0 2 (by decide) (by decide)).2.2⟩

/-- Claim C4: in every reachable editor state the slide ids of the live
presentation (and of every history snapshot) are pairwise distinct; a
fresh UUID for `createEmptySlide` / `addSlide`, id-preserving delete,
reorder and update, and the index-embedding import ids maintain this.
The last conjunct is the import part: `convertPptxJsonToFabric` assigns
ids embedding the slide index, which are pairwise distinct. -/
theorem claim_C4_unique_slide_ids (s : EditorState) (h : Editor.Reachable s) :
    ((s.presentation.slides.map Slide.id).Nodup ∧
      ∀ p ∈ s.history, (p.slides.map Slide.id).Nodup) ∧
    ∀ (now : Nat) (rnd : Nat → Nat → String) (json : PptxJson),
      ((convertPptxJsonToFabric now rnd json).slides.map Slide.id).Nodup := by
  obtain ⟨-, -, -, ⟨-, hnodup⟩, hall⟩ := Editor.reachable_inv h
  exact ⟨⟨hnodup, fun p hp => (hall p hp).2⟩,
    fun now rnd json => convert_nodup_ids now rnd json⟩

theorem claim_C4_witness :
    Editor.Reachable (Editor.initState "u4") ∧
    ((Editor.initState "u4").presentation.slides.map Slide.id).Nodup :=
  have hr : Editor.Reachable (Editor.initState "u4") :=
    ⟨"u4", Relation.ReflTransGen.refl⟩
  ⟨hr, (claim_C4_unique_slide_ids _ hr).1.1⟩

/-- Claim C5: `clonePresentation` (and `cloneSlide`), i.e.
`JSON.parse(JSON.stringify(·))`, rebuilds every node of a
JSON-representable value and returns a structurally equal tree.  (Sharing
of substructure has no counterpart in a pure value semantics: the round
trip rebuilds each node, which is what this theorem records.) -/
theorem claim_C5_clone_identity (j : Json) :
    clonePresentationJson j = j ∧ cloneSlideJson j = j :=
  ⟨cloneJson_eq j, cloneJson_eq j⟩

/-- Claim C6: every scene object produced by `convertPptxJsonToFabric` is
a record discriminated by a `type` tag (`textbox` for text, `image`,
`circle`, or `rect` for everything else) carrying `left`, `top`,
`width`, `height` and a `fill`, with `width` defaulted to 100 and
`height` to 50 whenever the parsed extent is not positive; and every
object of the converted presentation arises that way. -/
theorem claim_C6_import_objects :
    (∀ (oid : String) (shape : PptxShape),
      ((fabricObjOfShape oid shape).type = "textbox" ∨
        (fabricObjOfShape oid shape).type = "image" ∨
        (fabricObjOfShape oid shape).type = "circle" ∨
        (fabricObjOfShape oid shape).type = "rect") ∧
      (fabricObjOfShape oid shape).left = jsOrNum shape.left 0 ∧
      (fabricObjOfShape oid shape).top = jsOrNum shape.top 0 ∧
      (∀ w, shape.width = some w → 0 < w → (fabricObjOfShape oid shape).width = w) ∧
      ((∀ w, shape.width = some w → ¬ 0 < w) → (fabricObjOfShape oid shape).width = 100) ∧
      (∀ v, shape.height = some v → 0 < v → (fabricObjOfShape oid shape).height = v) ∧
      ((∀ v, shape.height = some v → ¬ 0 < v) → (fabricObjOfShape oid shape).height = 50) ∧
      (fabricObjOfShape oid shape).fill = jsOrStr shape.color (jsOrStr shape.fill "#000000")) ∧
    (∀ (now : Nat) (rnd : Nat → Nat → String) (json : PptxJson) (sl : Slide)
      (o : FabricObject), sl ∈ (convertPptxJsonToFabric now rnd json).slides →
      o ∈ sl.objects → ∃ oid shape, o = fabricObjOfShape oid shape) := by
  constructor
  · intro oid shape
    have hwidth : ∀ dflt : Rat,
        (∀ w, shape.width = some w → 0 < w → extentOrDefault shape.width dflt = w) ∧
        ((∀ w, shape.width = some w → ¬ 0 < w) → extentOrDefault shape.width dflt = dflt) := by
      intro dflt
      constructor
      · intro w hw hpos
        rw [hw]
        show (if 0 < w then w else dflt) = w
        rw [if_pos hpos]
      · intro hneg
        cases hw : shape.width with
        | none => rfl
        | some w =>
          show (if 0 < w then w else dflt) = dflt
          rw [if_neg (hneg w hw)]
    have hheight : ∀ dflt : Rat,
        (∀ v, shape.height = some v → 0 < v → extentOrDefault shape.height dflt = v) ∧
        ((∀ v, shape.height = some v → ¬ 0 < v) → extentOrDefault shape.height dflt = dflt) := by
      intro dflt
      constructor
      · intro v hv hpos
        rw [hv]
        show (if 0 < v then v else dflt) = v
        rw [if_pos hpos]
      · intro hneg
        cases hv : shape.height with
        | none => rfl
        | some v =>
          show (if 0 < v then v else dflt) = dflt
          rw [if_neg (hneg v hv)]
    rw [fabricObjOfShape]
    split_ifs <;>
      exact ⟨by simp, rfl, rfl, (hwidth 100).1, (hwidth 100).2, (hheight 50).1,
        (hheight 50).2, rfl⟩
  · intro now rnd json sl o hsl ho
    exact convertSlides_mem_objects now rnd json.slides 0 sl hsl o ho

theorem claim_C6_witness :
    shW.width = some (-3) ∧
    (fabricObjOfShape "text-0-r" shW).width = 100 ∧
    (fabricObjOfShape "text-0-r" shW).height = 50 :=
  have hneg : ∀ w : Rat, shW.width = some w → ¬ 0 < w := by
    intro w hw
    rw [show shW.width = some (-3) from rfl, Option.some.injEq] at hw
    rw [← hw]
    norm_num
  have hnegh : ∀ v : Rat, shW.height = some v → ¬ 0 < v := by
    intro v hv
    rw [show shW.height = none from rfl] at hv
    exact absurd hv (by simp)
  ⟨rfl, (claim_C6_import_objects.1 "text-0-r" shW).2.2.2.2.1 hneg,
    (claim_C6_import_objects.1 "text-0-r" shW).2.2.2.2.2.2.1 hnegh⟩

/-- Claim C7: `object:modified` / `object:added` / `object:removed`
events within 300 ms of one another are coalesced: for every finite burst
(sorted event times with consecutive gaps under 300 ms) the debounced
modification handler fires exactly once, 300 ms after the last event of
the burst — never once per event. -/
theorem claim_C7_debounce (ts : List Nat) (hne : ts ≠ [])
    (hburst : List.Chain' (fun a b => a ≤ b ∧ b < a + 300) ts) :
    debounceFires ts = [ts.getLast hne + 300] ∧
    ∀ e ∈ ts, e < ts.getLast hne + 300 := by
  constructor
  · cases ts with
    | nil => exact absurd rfl hne
    | cons t rest =>
      rw [debounceFires, fireTimes]
      rw [fireTimes_burst rest t hburst]
  · intro e he
    have := chain_le_getLast ts hne hburst e he
    omega

theorem claim_C7_witness :
    ([0, 100, 250] : List Nat) ≠ [] ∧
    debounceFires [0, 100, 250] = [550] :=
  ⟨by decide,
    (claim_C7_debounce [0, 100, 250] (by decide) (by norm_num [List.chain'_cons])).1⟩

theorem ctx_updatePresentation_pres (s : Ctx.CtxState) (p : Presentation) :
    (Ctx.updatePresentation s p).presentation = p := by
  rw [Ctx.updatePresentation]
  split
  · rfl
  · rfl

/-- Claim C8: every reachable editor state contains at least one slide;
with exactly one slide, `deleteSlide` changes nothing at all
(presentation, history, cursor and — in the provider version — the slide
cache); with more than one, it removes exactly the current slide and the
new `currentSlideIndex` is a valid index of the result. -/
theorem claim_C8_delete_slide :
    (∀ s : EditorState, Editor.Reachable s → s.presentation.slides ≠ []) ∧
    (∀ s : EditorState, s.presentation.slides.length = 1 → Editor.deleteSlide s = s) ∧
    (∀ cs : Ctx.CtxState, cs.presentation.slides.length = 1 → Ctx.deleteSlide cs = cs) ∧
    (∀ s : EditorState, 1 < s.presentation.slides.length →
      s.currentSlideIndex < s.presentation.slides.length →
      (Editor.deleteSlide s).presentation.slides =
        s.presentation.slides.eraseIdx s.currentSlideIndex ∧
      (Editor.deleteSlide s).currentSlideIndex <
        (Editor.deleteSlide s).presentation.slides.length) ∧
    (∀ cs : Ctx.CtxState, 1 < cs.presentation.slides.length →
      cs.currentSlideIndex < cs.presentation.slides.length →
      (Ctx.deleteSlide cs).presentation.slides =
        cs.presentation.slides.eraseIdx cs.currentSlideIndex ∧
      (Ctx.deleteSlide cs).currentSlideIndex <
        (Ctx.deleteSlide cs).presentation.slides.length) := by
  refine ⟨?_, ?_, ?_, ?_, ?_⟩
  · intro s hs
    exact (Editor.reachable_inv hs).2.2.2.1.1
  · intro s hlen
    rw [Editor.deleteSlide, if_pos (by omega)]
  · intro cs hlen
    rw [Ctx.deleteSlide, if_pos (by omega)]
  · intro s hlen hc
    have hel : (s.presentation.slides.eraseIdx s.currentSlideIndex).length =
        s.presentation.slides.length - 1 := List.length_eraseIdx_of_lt hc
    have hpres : (Editor.deleteSlide s).presentation.slides =
        s.presentation.slides.eraseIdx s.currentSlideIndex := by
      rw [Editor.deleteSlide, if_neg (by omega)]
      dsimp only
      split
      · rfl
      · rfl
    refine ⟨hpres, ?_⟩
    rw [hpres]
    rw [Editor.deleteSlide, if_neg (by omega)]
    dsimp only
    split
    · next hcond =>
      show (s.presentation.slides.eraseIdx s.currentSlideIndex).length - 1 <
        (s.presentation.slides.eraseIdx s.currentSlideIndex).length
      omega
    · next hcond =>
      have hcond' : ¬ (s.presentation.slides.eraseIdx s.currentSlideIndex).length ≤
          s.currentSlideIndex := hcond
      show s.currentSlideIndex < (s.presentation.slides.eraseIdx s.currentSlideIndex).length
      omega
  · intro cs hlen hc
    have hel : (cs.presentation.slides.eraseIdx cs.currentSlideIndex).length =
        cs.presentation.slides.length - 1 := List.length_eraseIdx_of_lt hc
    have h1 : (Ctx.deleteSlide cs).presentation = { clonePresentation cs.presentation with
        slides := cs.presentation.slides.eraseIdx cs.currentSlideIndex } := by
      rw [Ctx.deleteSlide, if_neg (by omega)]
      dsimp only
      exact ctx_updatePresentation_pres _ _
    have h2 : (Ctx.deleteSlide cs).currentSlideIndex = min cs.currentSlideIndex
        ((cs.presentation.slides.eraseIdx cs.currentSlideIndex).length - 1) := by
      rw [Ctx.deleteSlide, if_neg (by omega)]
    constructor
    · rw [h1]
    · rw [h2, h1]
      show min cs.currentSlideIndex _ < (cs.presentation.slides.eraseIdx cs.currentSlideIndex).length
      omega

theorem claim_C8_witness :
    Editor.Reachable (Editor.initState "u8") ∧
    (Editor.initState "u8").presentation.slides ≠ [] ∧
    csW1.presentation.slides.length = 1 ∧
    Ctx.deleteSlide csW1 = csW1 ∧
    1 < csW2.presentation.slides.length ∧
    (Ctx.deleteSlide csW2).presentation.slides =
      csW2.presentation.slides.eraseIdx csW2.currentSlideIndex :=
  have hr : Editor.Reachable (Editor.initState "u8") :=
    ⟨"u8", Relation.ReflTransGen.refl⟩
  ⟨hr, claim_C8_delete_slide.1 _ hr, by decide,
    claim_C8_delete_slide.2.2.1 csW1 (by decide), by decide,
    (claim_C8_delete_slide.2.2.2.2 csW2 (by decide) (by decide)).1⟩

/-- Claim C9: `reorderSlides` preserves the displayed slide: for valid
`fromIndex ≠ toIndex`, after the index adjustment the slide found at the
new `currentSlideIndex` has the same id as the slide that was displayed
before the reorder. -/
theorem claim_C9_reorder_preserves_displayed (s : EditorState) (f t : Nat)
    (hf : f < s.presentation.slides.length) (ht : t < s.presentation.slides.length)
    (hc : s.currentSlideIndex < s.presentation.slides.length) (hft : f ≠ t) :
    ((Editor.reorderSlides s f t).presentation.slides[(Editor.reorderSlides s
        f t).currentSlideIndex]?).map Slide.id =
      some (s.presentation.slides.get ⟨s.currentSlideIndex, hc⟩).id := by
  rw [Editor.reorderSlides_pres s f t hf, Editor.reorderSlides_cur s f t hf]
  rw [reorder_index_get s.presentation.slides f t s.currentSlideIndex hf ht hc hft]
  rfl

theorem claim_C9_witness :
    (0 : Nat) < sW3.presentation.slides.length ∧ 2 < sW3.presentation.slides.length ∧
    sW3.currentSlideIndex < sW3.presentation.slides.length ∧
    ((Editor.reorderSlides sW3 0 2).presentation.slides[(Editor.reorderSlides sW3 0
        2).currentSlideIndex]?).map Slide.id =
      some (sW3.presentation.slides.get ⟨sW3.currentSlideIndex, by decide⟩).id :=
  ⟨by decide, by decide, by decide,
    claim_C9_reorder_preserves_displayed sW3 0 2 (by decide) (by decide) (by decide)
      (by decide)⟩

/-- Claim C10: once the history is initialized, every operation keeps the
cursor in bounds: `0 ≤ historyIndex ≤ history.length - 1` in every
reachable state, so `canUndo` / `canRedo` are exact guards and the
`history[historyIndex ± 1]` accesses of `undo` / `redo` stay inside the
array. -/
theorem claim_C10_cursor_in_bounds (s : EditorState) (h : Editor.Reachable s) :
    0 < s.history.length ∧ s.historyIndex ≤ s.history.length - 1 ∧
    (0 < s.historyIndex → s.historyIndex - 1 < s.history.length) ∧
    (s.historyIndex < s.history.length - 1 → s.historyIndex + 1 < s.history.length) := by
  obtain ⟨hne, hle, hidx, -, -⟩ := Editor.reachable_inv h
  have hpos := List.length_pos.mpr hne
  exact ⟨hpos, by omega, by omega, by omega⟩

theorem claim_C10_witness :
    Editor.Reachable (Editor.initState "u10") ∧
    (Editor.initState "u10").historyIndex ≤ (Editor.initState "u10").history.length - 1 :=
  have hr : Editor.Reachable (Editor.initState "u10") :=
    ⟨"u10", Relation.ReflTransGen.refl⟩
  ⟨hr, (claim_C10_cursor_in_bounds _ hr).2.1⟩

end PptEditor
